import Mathlib

/-!
Verification development for the stock-watchlist news-to-insight pipeline
(src/app.py).  Python strings are modelled as `List Char`; each helper below
is a direct translation of the corresponding Python string primitive used by
the source, and each pipeline function is translated from the body of the
Flask endpoint it names.
-/

/-- Convenience: the character list of a string literal. -/
def lit (s : String) : List Char := s.data

/-- The whitespace characters stripped by Python `str.strip()` /
split on by `str.split()` (ASCII subset). -/
def pySpace (c : Char) : Bool :=
  c = ' ' || c = '\t' || c = '\n' || c = '\r' || c = '\x0b' || c = '\x0c'

/-- Python `str.strip()`: drop leading and trailing whitespace. -/
def pyStrip (s : List Char) : List Char :=
  (((s.dropWhile pySpace).reverse).dropWhile pySpace).reverse

/-- Python `str.split(sep)` for a single-character separator: keeps empty
fields, so the result is always nonempty. -/
def splitChar (sep : Char) : List Char → List (List Char)
  | [] => [[]]
  | c :: rest =>
    if c = sep then [] :: splitChar sep rest
    else
      match splitChar sep rest with
      | [] => [[c]]
      | g :: gs => (c :: g) :: gs

/-- Worker for Python `str.split()` (no argument): split on runs of
whitespace, discarding empty fields; `acc` holds the reversed current
field. -/
def splitWsAux : List Char → List Char → List (List Char)
  | [], acc => if acc = [] then [] else [acc.reverse]
  | c :: rest, acc =>
    if pySpace c then
      if acc = [] then splitWsAux rest []
      else acc.reverse :: splitWsAux rest []
    else splitWsAux rest (c :: acc)

/-- Python `str.split()` with no argument. -/
def splitWs (s : List Char) : List (List Char) := splitWsAux s []

/-- Python `str.lower()` (ASCII model). -/
def lowerL (s : List Char) : List Char := s.map Char.toLower

/-- Worker for Python `str.replace(pat, rep)` with a nonempty pattern:
left-to-right, non-overlapping replacement of every occurrence.  Each step
consumes at least one character, so the fuel (initialized to the string's
length) never runs out. -/
def replaceSubGo (pat rep : List Char) : Nat → List Char → List Char
  | _, [] => []
  | 0, s => s
  | Nat.succ fuel, c :: rest =>
    if pat.isPrefixOf (c :: rest) then
      rep ++ replaceSubGo pat rep fuel (List.drop pat.length (c :: rest))
    else c :: replaceSubGo pat rep fuel rest

/-- Python `str.replace(pat, rep)` for a nonempty pattern (every call in
the source uses a nonempty literal pattern). -/
def replaceSub (pat rep : List Char) (s : List Char) : List Char :=
  replaceSubGo pat rep s.length s

/-- Python `line.replace(pat, '')`: remove every occurrence of `pat`. -/
def removeSub (pat : List Char) (s : List Char) : List Char :=
  replaceSub pat [] s

/-- Python `str.replace(p ++ q, r)` for a two-character pattern and
one-character replacement (the shape used by `sanitize_for_ai_prompt`):
left-to-right, non-overlapping. -/
def replPair (p q r : Char) : List Char → List Char
  | a :: b :: rest =>
    if a = p ∧ b = q then r :: replPair p q r rest
    else a :: replPair p q r (b :: rest)
  | l => l

/-- Digits-with-underscores tail of Python `int()` literal parsing:
an underscore may only stand between two digits. -/
def pyDigitsGo (acc : Nat) : List Char → Option Nat
  | [] => some acc
  | '_' :: c :: rest =>
    if c.isDigit then pyDigitsGo (acc * 10 + (c.toNat - 48)) rest else none
  | c :: rest =>
    if c.isDigit then pyDigitsGo (acc * 10 + (c.toNat - 48)) rest else none

/-- Nonempty digit sequence (with optional internal underscores). -/
def pyDigits : List Char → Option Nat
  | [] => none
  | c :: rest =>
    if c.isDigit then pyDigitsGo (c.toNat - 48) rest else none

/-- Python `int(str)`: strip whitespace, optional sign, decimal digits;
any other shape raises (modelled as `none`). -/
def pyInt (s : List Char) : Option Int :=
  match pyStrip s with
  | '+' :: rest => (pyDigits rest).map (fun m => (m : Int))
  | '-' :: rest => (pyDigits rest).map (fun m => -(m : Int))
  | l => (pyDigits l).map (fun m => (m : Int))

/-- An ASCII control character, the class removed by
`re.sub(r'[\x00-\x1F\x7F]', '', ...)` in `sanitize_for_ai_prompt`. -/
def isCtrl (c : Char) : Bool := decide (c.toNat ≤ 31) || decide (c.toNat = 127)

/-- `re.sub(r'[\x00-\x1F\x7F]', '', s)`: drop every control character. -/
def removeCtrl (s : List Char) : List Char := s.filter (fun c => !isCtrl c)

/-- Body of `sanitize_for_ai_prompt` on a (non-`None`) string: remove control
characters, collapse the literal two-character sequences backslash-`n` and
backslash-`r` to single spaces, truncate to 500 characters.  The leading
`if not text` test returns `""` for the empty string. -/
def sanitizeStr (s : List Char) : List Char :=
  if s = [] then []
  else List.take 500 (replPair '\\' 'r' ' ' (replPair '\\' 'n' ' ' (removeCtrl s)))

/-- `sanitize_for_ai_prompt(text)`; `none` models Python `None`
(falsy, so it also yields the empty string). -/
def sanitize_for_ai_prompt : Option (List Char) → List Char
  | none => []
  | some s => sanitizeStr s

/-- A link attached to a feed entry (`entry.links` items): declared MIME
type (`link.get('type','')`) and target (`link.get('href','')`). -/
structure LinkItem where
  mime : List Char
  href : List Char
deriving DecidableEq

/-- A raw feed entry as consumed by `get_stock_news`: the fields read via
`entry.get(...)`, plus the optional `media_content` attachment urls
(`entry.media_content[i].get('url','')`; an absent attribute is the empty
list) and the `entry.links` list. -/
structure Entry where
  title : List Char
  summary : List Char
  link : List Char
  published : List Char
  source_title : List Char
  media_content : List (List Char)
  links : List LinkItem
deriving DecidableEq

/-- A filtered article dict as produced by `get_stock_news`. -/
structure Article where
  title : List Char
  description : List Char
  url : List Char
  published : List Char
  source : List Char
  image : Option (List Char)
deriving DecidableEq

/-- Image extraction in `get_stock_news`: prefer the first `media_content`
url; else the first link whose declared type starts with `image/`;
else `None`. -/
def entryImage (e : Entry) : Option (List Char) :=
  match e.media_content with
  | m :: _ => some m
  | [] => (e.links.find? (fun l => (lit "image/").isPrefixOf l.mime)).map
      (fun l => l.href)

/-- The article dict built for a surviving entry in `get_stock_news`. -/
def mkArticle (e : Entry) : Article :=
  { title := e.title
    description := e.summary
    url := e.link
    published := e.published
    source := e.source_title
    image := entryImage e }

/-- Whether an entry passes the freshness test of `get_stock_news`: its
`published` string parses and the (timezone-normalized) instant is not
before the cutoff.  The permissive date parser (`dateutil.parser.parse`
composed with the tz-naive normalization) is an external library, modelled
as an abstract partial function `dparse` into integer instants. -/
def freshB (dparse : List Char → Option Int) (cutoff : Int) (e : Entry) : Bool :=
  match dparse e.published with
  | some t => decide (cutoff ≤ t)
  | none => false

/-- The accumulation loop of `get_stock_news`: skip entries whose date
fails to parse, skip entries strictly older than the cutoff, append the
article otherwise, and break once `cap` articles are collected (the source
breaks after appending when `len(articles) >= 3`). -/
def freshFilter (dparse : List Char → Option Int) (cutoff : Int) :
    Nat → List Entry → List Article
  | _, [] => []
  | cap, e :: rest =>
    match dparse e.published with
    | none => freshFilter dparse cutoff cap rest
    | some t =>
      if t < cutoff then freshFilter dparse cutoff cap rest
      else if cap ≤ 1 then [mkArticle e]
      else mkArticle e :: freshFilter dparse cutoff (cap - 1) rest

/-- The article list returned by `get_stock_news` for a list of raw feed
entries: the freshness filter with the source's hard cap of 3. -/
def get_stock_news (dparse : List Char → Option Int) (cutoff : Int)
    (entries : List Entry) : List Article :=
  freshFilter dparse cutoff 3 entries

/-- Result of the `/api/stock_price/<ticker>` endpoint: either an error
response with its HTTP status (429 when the history is empty) or the
rounded current price and day-over-day percent change. -/
inductive PriceResult where
  | err (status : Nat)
  | ok (current_price : Rat) (change_percent : Rat)
deriving DecidableEq

/-- Round-half-to-even to an integer (the rounding used by Python's
built-in `round`), on exact rationals. -/
def rndHalfEven (x : Rat) : Int :=
  let f := ⌊x⌋
  let r := x - (f : Rat)
  if r < 1/2 then f
  else if 1/2 < r then f + 1
  else if f % 2 = 0 then f else f + 1

/-- Python `round(x, 2)`: round to two decimal places. -/
def round2 (x : Rat) : Rat := (rndHalfEven (x * 100) : Rat) / 100

/-- `get_stock_price`, as a function of the close-price history rows the
market-data source returned (`hist['Close']`, oldest first): empty history
is the no-data case (HTTP 429); otherwise the current price is the last
close, and the change percent compares the last two closes when at least
two rows exist and is 0 with a single row.  (The transport-exception path,
HTTP 500, is outside this model.) -/
def get_stock_price (hist : List Rat) : PriceResult :=
  match hist.reverse with
  | [] => .err 429
  | [cur] => .ok (round2 cur) (round2 0)
  | cur :: prev :: _ => .ok (round2 cur) (round2 ((cur - prev) / prev * 100))

/-- The per-token analysis of the `ARTICLES:` line in `get_stock_sentiment`:
a token containing `:` is split on `:`; the Python unpacking
`idx_str, sent = pair.split(':')` raises unless there are exactly two
parts, and `int(idx_str)` raises on a malformed index — both are caught
and skip the token (`none`).  A successful parse yields the 0-based index
(`int(idx_str) - 1`) and the raw label text. -/
def tokenAssign (tok : List Char) : Option (Int × List Char) :=
  if tok.contains ':' then
    match splitChar ':' tok with
    | [a, b] =>
      match pyInt a with
      | some v => some (v - 1, b)
      | none => none
    | _ => none
  else none

/-- Apply one `index:label` token to the sentiment list: assign
`sent.lower()` at the 0-based index when `0 <= idx < len(articles)`,
otherwise leave the list unchanged. -/
def applyTok (n : Nat) (arts : List (List Char)) (tok : List Char) :
    List (List Char) :=
  match tokenAssign tok with
  | some (idx, sent) =>
    if 0 ≤ idx ∧ idx < (n : Int) then arts.set idx.toNat (lowerL sent)
    else arts
  | none => arts

/-- One iteration of the response-line loop in `get_stock_sentiment`:
an `OVERALL:` line replaces the overall label with the stripped, lowercased
remainder; an `ARTICLES:` line folds its whitespace-separated tokens into
the per-article list; any other line is ignored. -/
def processLine (n : Nat) (st : List Char × List (List Char))
    (line : List Char) : List Char × List (List Char) :=
  if (lit "OVERALL:").isPrefixOf line then
    (lowerL (pyStrip (removeSub (lit "OVERALL:") line)), st.2)
  else if (lit "ARTICLES:").isPrefixOf line then
    (st.1, (splitWs (pyStrip (removeSub (lit "ARTICLES:") line))).foldl
      (applyTok n) st.2)
  else st

/-- The defensive response parser of `get_stock_sentiment`: starting from
overall `"neutral"` and one `"neutral"` per article, process each
`'\n'`-separated line of the model response.  Returns
(overall sentiment, per-article sentiments). -/
def parseSentiment (n : Nat) (resp : List Char) :
    List Char × List (List Char) :=
  (splitChar '\n' resp).foldl (processLine n)
    (lit "neutral", List.replicate n (lit "neutral"))

/-- The no-surviving-articles test of `get_stock_sentiment`:
`'error' in news_data or not news_data.get('articles')`. -/
def noArticles (news : Except Unit (List Article)) : Bool :=
  match news with
  | .error _ => true
  | .ok l => l.isEmpty

/-- The 200 JSON body produced by `/api/stock_sentiment/<ticker>`. -/
structure SentimentOut where
  sentiment : List Char
  article_sentiments : List (List Char)
  price_change : Rat
  current_price : Option Rat
  article_count : Nat
deriving DecidableEq

/-- Result of `get_stock_sentiment`: `response = none` models the
endpoint's `except`-path answer, the generic
`'Failed to generate sentiment analysis'` error with HTTP 500; the ghost
flag records whether the text-generation model was invoked while handling
the request. -/
structure SentimentResp where
  response : Option SentimentOut
  modelCalled : Bool
deriving DecidableEq

/-- `get_stock_sentiment`, as a function of the nested news result, the
nested price result, and the text the model would answer if it were called
(the API key is assumed configured).  A nested endpoint signals an error
by returning a `(Response, status)` tuple, and `.get_json()` on a tuple
raises `AttributeError`: a news error raises at the
`news_response.get_json()` line and a price error at
`price_response.get_json()`, both caught by the endpoint's own `except`
into the generic 500 — before any model call.  Hence a successfully parsed
`news_data`/`price_data` never contains an `'error'` key: of the source's
no-data branch only the empty-articles disjunct is live, and within it the
`'error' in price_data` sub-branch (the fixed neutral/empty response) is
dead code — the sign-of-`change_percent` branch runs, with no model call.
With surviving articles the stripped model response is parsed
defensively. -/
def get_stock_sentiment (news : Except Unit (List Article))
    (price : PriceResult) (resp : List Char) : SentimentResp :=
  match news with
  | .error _ => { response := none, modelCalled := false }
  | .ok articles =>
    match price with
    | .err _ => { response := none, modelCalled := false }
    | .ok cur chg =>
      if articles.isEmpty then
        { response := some
            { sentiment :=
                if chg > 0 then lit "bullish"
                else if chg < 0 then lit "bearish"
                else lit "neutral"
              article_sentiments := []
              price_change := chg, current_price := some cur
              article_count := 0 }
          modelCalled := false }
      else
        let parsed := parseSentiment articles.length (pyStrip resp)
        { response := some
            { sentiment := parsed.1, article_sentiments := parsed.2
              price_change := chg, current_price := some cur
              article_count := articles.length }
          modelCalled := true }

/-- The 200 body `get_stock_sentiment` produces in the price-only branch
(no surviving articles, price data parsed): empty per-article list, the
given label, the parsed price fields. -/
def signBody (cur chg : Rat) (lbl : List Char) : SentimentOut :=
  { sentiment := lbl, article_sentiments := []
    price_change := chg, current_price := some cur, article_count := 0 }

/-- A record of the `summaries` list of `/api/stock_article_summaries`. -/
structure ArticleSummary where
  headline : List Char
  url : List Char
  source : List Char
  title : List Char
  description : List Char
deriving DecidableEq

/-- The record `generate_article_summary` produces for one article: the
stripped model headline on success, and the sentinel record built in the
`except` branch of the collection loop when the generation raised
(`gen = none`).  Both carry the article's own url/source/title/description. -/
def mkSummary (a : Article) (gen : Option (List Char)) : ArticleSummary :=
  match gen with
  | some h =>
    { headline := pyStrip h, url := a.url, source := a.source
      title := a.title, description := a.description }
  | none =>
    { headline := lit "Error generating summary", url := a.url
      source := a.source, title := a.title, description := a.description }

/-- The summary record contributed by the future of article index `i`
(`future_to_article` keys each future by its own article). -/
def summaryAt (articles : List Article) (gen : Nat → Option (List Char))
    (i : Nat) : Option ArticleSummary :=
  (articles[i]?).map (fun a => mkSummary a (gen i))

/-- The fan-out/fan-in of `get_article_summaries`: each article's headline
generation runs concurrently (`gen i = none` models a raised exception for
article `i`), and `as_completed` yields the futures in an arbitrary
completion order, modelled by `order`, a permutation of the article
indices; the `summaries` list is appended in exactly that order. -/
def get_article_summaries (articles : List Article)
    (gen : Nat → Option (List Char)) (order : List Nat) :
    List ArticleSummary :=
  order.filterMap (summaryAt articles gen)

/-- Result of `/api/stock_daily_summary/<ticker>`: `daily_summary = none`
models the endpoint's `except`-path answer, the generic
`'Failed to generate daily summary'` error with HTTP 500; `modelCalls` is
a ghost count of text-generation model calls made while handling the
request (including calls made inside the nested sentiment stage). -/
structure DailyOut where
  daily_summary : Option (List Char)
  modelCalls : Nat
deriving DecidableEq

/-- `get_daily_summary`, as a function of the nested news and price
results and the texts the model answers in the nested sentiment call and
in the endpoint's own call (API key assumed configured).  A price error is
a `(Response, status)` tuple, so `price_response.get_json()` raises
`AttributeError` immediately — before the sentiment stage is ever invoked
and before any model call — and the `except` returns the generic 500.
Likewise, when the nested sentiment endpoint answers its generic 500
tuple (e.g. the news stage errored inside it),
`sentiment_response.get_json()` raises and the daily endpoint degrades to
its generic 500, keeping whatever model calls the sentiment stage made.
A successfully parsed `price_data` never contains an `'error'` key, so
the source's fixed `'Market data unavailable'` return is unreachable dead
code; the live success path re-fetches the news for headlines and makes
the endpoint's own model call, producing the stripped rationale. -/
def get_daily_summary (news : Except Unit (List Article))
    (price : PriceResult) (sentResp dailyResp : List Char) : DailyOut :=
  match price with
  | .err _ => { daily_summary := none, modelCalls := 0 }
  | .ok _ _ =>
    let s := get_stock_sentiment news price sentResp
    let calls := if s.modelCalled then 1 else 0
    match s.response with
    | none => { daily_summary := none, modelCalls := calls }
    | some _ => { daily_summary := some (pyStrip dailyResp), modelCalls := calls + 1 }

/-- The sentiment-label alphabet of the spec's `SentimentResult` enum. -/
def enumLabelB (s : List Char) : Bool :=
  s = lit "bullish" || s = lit "bearish" || s = lit "neutral"

/-- A token is conforming when the label it would assign lowercases into
the sentiment enum. -/
def tokOkB (tok : List Char) : Bool :=
  match tokenAssign tok with
  | some r => enumLabelB (lowerL r.2)
  | none => true

/-- A response line is conforming when the label text it contributes
(overall payload, or every assigned token label) lowercases into the
sentiment enum. -/
def lineOkB (line : List Char) : Bool :=
  if (lit "OVERALL:").isPrefixOf line then
    enumLabelB (lowerL (pyStrip (removeSub (lit "OVERALL:") line)))
  else if (lit "ARTICLES:").isPrefixOf line then
    (splitWs (pyStrip (removeSub (lit "ARTICLES:") line))).all tokOkB
  else true

/-- A model response is conforming when each of its lines is. -/
def respOkB (resp : List Char) : Bool := (splitChar '\n' resp).all lineOkB

/-- Absence of an adjacent character pair `p, q` in a list (used to state
that the sanitizer's output has no residual backslash-escape sequence). -/
def noPairB (p q : Char) : List Char → Bool
  | a :: b :: rest => !(a = p && b = q) && noPairB p q (b :: rest)
  | _ => true

/-- Concrete fixture: an article used by the counterexample and witness
instances. -/
def artA : Article :=
  { title := lit "t0", description := lit "d0", url := lit "u0"
    published := lit "p0", source := lit "s0", image := none }

/-- Concrete fixture: a second, distinct article. -/
def artB : Article :=
  { title := lit "t1", description := lit "d1", url := lit "u1"
    published := lit "p1", source := lit "s1", image := none }

/-- Concrete fixture: headline generation where article 0's call raises
and article 1's call answers "ok". -/
def genEx : Nat → Option (List Char) :=
  fun i => if i = 0 then none else some (lit "ok")

/-- Concrete fixture: a raw feed entry with all fields empty. -/
def entry0 : Entry :=
  { title := [], summary := [], link := [], published := []
    source_title := [], media_content := [], links := [] }

theorem length_applyTok (n : Nat) (arts : List (List Char)) (tok : List Char) :
    (applyTok n arts tok).length = arts.length := by
  unfold applyTok
  cases tokenAssign tok with
  | none => rfl
  | some r =>
    obtain ⟨idx, sent⟩ := r
    by_cases h : 0 ≤ idx ∧ idx < (n : Int)
    · simp [h]
    · simp [h]

theorem length_foldl_applyTok (n : Nat) (toks : List (List Char))
    (arts : List (List Char)) :
    (toks.foldl (applyTok n) arts).length = arts.length := by
  induction toks generalizing arts with
  | nil => rfl
  | cons t ts ih => rw [List.foldl_cons, ih, length_applyTok]

theorem length_processLine (n : Nat) (st : List Char × List (List Char))
    (line : List Char) : (processLine n st line).2.length = st.2.length := by
  unfold processLine
  by_cases h1 : (lit "OVERALL:").isPrefixOf line = true
  · simp [h1]
  · by_cases h2 : (lit "ARTICLES:").isPrefixOf line = true
    · simp [h1, h2, length_foldl_applyTok]
    · simp [h1, h2]

theorem length_foldl_processLine (n : Nat) (lines : List (List Char))
    (st : List Char × List (List Char)) :
    (lines.foldl (processLine n) st).2.length = st.2.length := by
  induction lines generalizing st with
  | nil => rfl
  | cons l ls ih => rw [List.foldl_cons, ih, length_processLine]

/-- C1: for every list of input articles and every model response text, the
sentiment parser returns an `article_sentiments` list whose length equals
the number of input articles; unrecognized lines are ignored, a malformed
`index:label` token is skipped without discarding the remaining tokens,
1-based wire indices become 0-based, out-of-range indices are ignored, and
positions never assigned a label stay `neutral` — witnessed by the spec's
malformed-response example and an out-of-range example. -/
theorem C1_parser_alignment (articles : List Article) (resp : List Char) :
    (parseSentiment articles.length resp).2.length = articles.length
    ∧ parseSentiment 3
        (lit "OVERALL: bullish\nARTICLES: 1:bullish garbage 3:bearish")
        = (lit "bullish", [lit "bullish", lit "neutral", lit "bearish"])
    ∧ (parseSentiment 3 (lit "ARTICLES: 1:bullish 7:bearish")).2
        = [lit "bullish", lit "neutral", lit "neutral"] := by
  refine ⟨?_, by decide, by decide⟩
  unfold parseSentiment
  rw [length_foldl_processLine]
  exact List.length_replicate ..

theorem enum_applyTok (n : Nat) (arts : List (List Char)) (tok : List Char)
    (h1 : tokOkB tok = true) (h2 : ∀ s ∈ arts, enumLabelB s = true) :
    ∀ s ∈ applyTok n arts tok, enumLabelB s = true := by
  unfold applyTok
  unfold tokOkB at h1
  cases htok : tokenAssign tok with
  | none => simpa using h2
  | some r =>
    obtain ⟨idx, sent⟩ := r
    rw [htok] at h1
    by_cases hb : 0 ≤ idx ∧ idx < (n : Int)
    · simp only [hb, if_true]
      intro s hs
      rcases List.mem_or_eq_of_mem_set hs with hmem | rfl
      · exact h2 s hmem
      · exact h1
    · simp only [hb, if_false]
      exact h2

theorem enum_foldl_applyTok (n : Nat) (toks : List (List Char)) :
    ∀ (arts : List (List Char)), toks.all tokOkB = true →
    (∀ s ∈ arts, enumLabelB s = true) →
    ∀ s ∈ toks.foldl (applyTok n) arts, enumLabelB s = true := by
  induction toks with
  | nil => intro arts _ h2; exact h2
  | cons t ts ih =>
    intro arts h1 h2
    rw [List.all_cons, Bool.and_eq_true] at h1
    exact ih _ h1.2 (enum_applyTok n arts t h1.1 h2)

theorem enum_processLine (n : Nat) (st : List Char × List (List Char))
    (line : List Char) (h : lineOkB line = true)
    (h1 : enumLabelB st.1 = true) (h2 : ∀ s ∈ st.2, enumLabelB s = true) :
    enumLabelB (processLine n st line).1 = true
    ∧ ∀ s ∈ (processLine n st line).2, enumLabelB s = true := by
  unfold processLine
  unfold lineOkB at h
  by_cases ho : (lit "OVERALL:").isPrefixOf line = true
  · rw [if_pos ho] at h ⊢
    exact ⟨h, h2⟩
  · rw [if_neg ho] at h ⊢
    by_cases ha : (lit "ARTICLES:").isPrefixOf line = true
    · rw [if_pos ha] at h ⊢
      exact ⟨h1, enum_foldl_applyTok n _ _ h h2⟩
    · rw [if_neg ha]
      exact ⟨h1, h2⟩

theorem enum_foldl_processLine (n : Nat) (lines : List (List Char)) :
    ∀ (st : List Char × List (List Char)), lines.all lineOkB = true →
    enumLabelB st.1 = true → (∀ s ∈ st.2, enumLabelB s = true) →
    enumLabelB (lines.foldl (processLine n) st).1 = true
    ∧ ∀ s ∈ (lines.foldl (processLine n) st).2, enumLabelB s = true := by
  induction lines with
  | nil => intro st _ h1 h2; exact ⟨h1, h2⟩
  | cons l ls ih =>
    intro st h h1 h2
    rw [List.all_cons, Bool.and_eq_true] at h
    have step := enum_processLine n st l h.1 h1 h2
    exact ih _ h.2 step.1 step.2

/-- C8 counterexample: the parser performs no validation of label text — the
response `"ARTICLES: 1:positive"` with one article yields the per-article
label `"positive"`, which is not a member of {bullish, bearish, neutral}. -/
theorem C8_cex :
    (parseSentiment 1 (lit "ARTICLES: 1:positive")).2 = [lit "positive"]
    ∧ ¬ (∀ s ∈ (parseSentiment 1 (lit "ARTICLES: 1:positive")).2,
          enumLabelB s = true) := by
  constructor
  · decide
  · decide

/-- C8 (amended): the parser copies (lowercased) label text straight from
the model response, so enum membership is guaranteed only for conforming
responses: if every `OVERALL:` payload and every label assigned by a
well-formed `index:label` token lowercases into {bullish, bearish,
neutral}, then the returned overall sentiment and every element of
`article_sentiments` are members of the enum (unassigned positions are
`neutral`); a non-conforming response's label text is passed through
unvalidated. -/
theorem C8_enum_of_conforming (n : Nat) (resp : List Char)
    (h : respOkB resp = true) :
    enumLabelB (parseSentiment n resp).1 = true
    ∧ ∀ s ∈ (parseSentiment n resp).2, enumLabelB s = true := by
  unfold parseSentiment
  unfold respOkB at h
  refine enum_foldl_processLine n (splitChar '\n' resp)
    (lit "neutral", List.replicate n (lit "neutral")) h
    (show enumLabelB (lit "neutral") = true by decide) ?_
  intro s hs
  rw [List.eq_of_mem_replicate hs]
  decide

/-- Witness for C8 (amended) at a concrete conforming response. -/
theorem C8_enum_witness :
    respOkB (lit "OVERALL: Bullish\nARTICLES: 1:bearish 2:NEUTRAL") = true
    ∧ (enumLabelB (parseSentiment 2
        (lit "OVERALL: Bullish\nARTICLES: 1:bearish 2:NEUTRAL")).1 = true
      ∧ ∀ s ∈ (parseSentiment 2
          (lit "OVERALL: Bullish\nARTICLES: 1:bearish 2:NEUTRAL")).2,
          enumLabelB s = true) :=
  ⟨by decide, C8_enum_of_conforming 2 _ (by decide)⟩

theorem freshFilter_eq_take_filter (dparse : List Char → Option Int)
    (cutoff : Int) :
    ∀ (entries : List Entry) (cap : Nat), 1 ≤ cap →
    freshFilter dparse cutoff cap entries
      = ((entries.filter (freshB dparse cutoff)).take cap).map mkArticle := by
  intro entries
  induction entries with
  | nil => intro cap _; simp [freshFilter]
  | cons e rest ih =>
    intro cap hcap
    obtain ⟨k, rfl⟩ : ∃ k, cap = k + 1 := ⟨cap - 1, by omega⟩
    cases hd : dparse e.published with
    | none =>
      have hb : freshB dparse cutoff e = false := by unfold freshB; rw [hd]
      simp [freshFilter, hd, hb, ih _ hcap]
    | some t =>
      by_cases hlt : t < cutoff
      · have hb : freshB dparse cutoff e = false := by
          unfold freshB; rw [hd]; simpa using hlt
        simp [freshFilter, hd, hb, hlt, ih _ hcap]
      · have hb : freshB dparse cutoff e = true := by
          unfold freshB; rw [hd]; simpa using not_lt.mp hlt
        by_cases hk : k = 0
        · subst hk
          simp [freshFilter, hd, hb, hlt]
        · simp [freshFilter, hd, hb, hlt, ih k (by omega),
            show ¬ k + 1 ≤ 1 by omega, List.take_succ_cons]

/-- C3: for every date parser, cutoff and raw entry list, the freshness
filter of `get_stock_news` returns, in original source order, exactly the
first up-to-3 entries whose `published` field parses to an instant ≥ the
cutoff; its output length is at most the cap (3); and every output article
comes from an entry whose date parsed (an unparseable entry is never
present). -/
theorem C3_freshness_filter (dparse : List Char → Option Int) (cutoff : Int)
    (entries : List Entry) :
    get_stock_news dparse cutoff entries
      = ((entries.filter (freshB dparse cutoff)).take 3).map mkArticle
    ∧ (get_stock_news dparse cutoff entries).length ≤ 3
    ∧ ∀ a ∈ get_stock_news dparse cutoff entries,
        ∃ e, e ∈ entries ∧ (∃ t, dparse e.published = some t ∧ cutoff ≤ t)
          ∧ a = mkArticle e := by
  have hc := freshFilter_eq_take_filter dparse cutoff entries 3 (by omega)
  refine ⟨hc, ?_, ?_⟩
  · rw [show get_stock_news dparse cutoff entries
        = freshFilter dparse cutoff 3 entries from rfl, hc]
    rw [List.length_map]
    exact List.length_take_le ..
  · intro a ha
    rw [show get_stock_news dparse cutoff entries
        = freshFilter dparse cutoff 3 entries from rfl, hc] at ha
    obtain ⟨e, he, rfl⟩ := List.mem_map.mp ha
    have he2 := List.take_subset _ _ he
    have he3 := List.mem_filter.mp he2
    refine ⟨e, he3.1, ?_, rfl⟩
    have hb := he3.2
    unfold freshB at hb
    cases hd : dparse e.published with
    | none => rw [hd] at hb; exact absurd hb (by simp)
    | some t => rw [hd] at hb; exact ⟨t, rfl, by simpa using hb⟩

/-- C7 counterexample: with a date parser mapping the entry to exactly the
cutoff instant, the entry IS retained — the filter keeps entries whose
timestamp equals the cutoff (the source only skips
`published_date < cutoff_time`), contradicting "strictly newer". -/
theorem C7_cex :
    get_stock_news (fun _ => some 0) 0 [entry0] = [mkArticle entry0] := by
  decide

/-- C7 (amended): the freshness filter retains only entries whose parsed
timestamp is ≥ the cutoff (in source order, capped at 3); an entry whose
parsed timestamp equals the cutoff instant is treated as fresh and IS
included in the output (when capacity remains), not excluded. -/
theorem C7_cutoff_inclusive (dparse : List Char → Option Int) (cutoff : Int)
    (entries : List Entry) (e : Entry) :
    (∀ a ∈ get_stock_news dparse cutoff entries,
      ∃ e2, e2 ∈ entries ∧ ∃ t, dparse e2.published = some t ∧ cutoff ≤ t
        ∧ a = mkArticle e2)
    ∧ get_stock_news (fun _ => some cutoff) cutoff [e] = [mkArticle e] := by
  constructor
  · intro a ha
    rw [show get_stock_news dparse cutoff entries
        = freshFilter dparse cutoff 3 entries from rfl,
      freshFilter_eq_take_filter dparse cutoff entries 3 (by omega)] at ha
    obtain ⟨e2, he, rfl⟩ := List.mem_map.mp ha
    have he3 := List.mem_filter.mp (List.take_subset _ _ he)
    have hb := he3.2
    unfold freshB at hb
    cases hd : dparse e2.published with
    | none => rw [hd] at hb; exact absurd hb (by simp)
    | some t =>
      rw [hd] at hb
      exact ⟨e2, he3.1, t, hd, by simpa using hb, rfl⟩
  · show freshFilter (fun _ => some cutoff) cutoff 3 [e] = [mkArticle e]
    simp [freshFilter]

/-- C4: for every price history — empty history signals the no-data case
(HTTP 429); a single row gives `change_percent = 0`; with at least two rows
the change percent is `(last − prior) / prior × 100` rounded to 2 decimal
places and the current price is the last close rounded to 2 decimal
places; the history `[100, 102]` yields `current_price = 102` and
`change_percent = 2`. -/
theorem C4_price_change (p prev cur : Rat) (l : List Rat) :
    get_stock_price [] = PriceResult.err 429
    ∧ get_stock_price [p] = PriceResult.ok (round2 p) 0
    ∧ get_stock_price (l ++ [prev, cur])
        = PriceResult.ok (round2 cur) (round2 ((cur - prev) / prev * 100))
    ∧ get_stock_price [100, 102] = PriceResult.ok 102 2 := by
  refine ⟨rfl, ?_, ?_, ?_⟩
  · show get_stock_price [p] = PriceResult.ok (round2 p) 0
    have h0 : round2 0 = 0 := by norm_num [round2, rndHalfEven]
    simp [get_stock_price, h0]
  · show get_stock_price (l ++ [prev, cur]) = _
    unfold get_stock_price
    rw [show (l ++ [prev, cur]).reverse = cur :: prev :: l.reverse by simp]
  · show PriceResult.ok (round2 102) (round2 (((102:Rat) - 100) / 100 * 100))
        = PriceResult.ok 102 2
    have h1 : round2 (102:Rat) = 102 := by norm_num [round2, rndHalfEven]
    have h2 : round2 (((102:Rat) - 100) / 100 * 100) = 2 := by
      norm_num [round2, rndHalfEven]
    rw [h1, h2]

/-- C5 counterexample: with no surviving articles and price data also
unavailable, the sentiment endpoint does NOT return the neutral/empty
body — the price stage's error return is a `(Response, 429)` tuple, so
`price_response.get_json()` raises `AttributeError` and the endpoint
answers its generic 500 error (`response = none`); no model call is
made. -/
theorem C5_cex :
    (get_stock_sentiment (Except.ok ([] : List Article)) (PriceResult.err 429)
        []).response = none
    ∧ (get_stock_sentiment (Except.ok ([] : List Article)) (PriceResult.err 429)
        []).modelCalled = false :=
  ⟨rfl, rfl⟩

/-- C5 (amended): whenever no articles survive filtering, the sentiment
endpoint makes no text-generation model call; when the price stage (or
the news stage) errored, `.get_json()` on its `(Response, status)` tuple
raises and the endpoint returns its generic 500 error — the fixed
neutral/empty response of the source is dead code; when price data is
available, the sentiment is determined solely by the sign of
`change_percent` (positive → bullish, negative → bearish, zero →
neutral), with an empty per-article list. -/
theorem C5_no_news_behavior (news : Except Unit (List Article))
    (price : PriceResult) (resp : List Char)
    (h : noArticles news = true) :
    (get_stock_sentiment news price resp).modelCalled = false
    ∧ (∀ st, price = PriceResult.err st →
        (get_stock_sentiment news price resp).response = none)
    ∧ (∀ u, news = Except.error u →
        (get_stock_sentiment news price resp).response = none)
    ∧ (∀ cur chg, news = Except.ok ([] : List Article) →
        price = PriceResult.ok cur chg →
        (0 < chg → (get_stock_sentiment news price resp).response
            = some (signBody cur chg (lit "bullish")))
        ∧ (chg < 0 → (get_stock_sentiment news price resp).response
            = some (signBody cur chg (lit "bearish")))
        ∧ (chg = 0 → (get_stock_sentiment news price resp).response
            = some (signBody cur chg (lit "neutral")))) := by
  cases news with
  | error u =>
    exact ⟨rfl, fun _ _ => rfl, fun _ _ => rfl,
      fun _ _ hne _ => Except.noConfusion hne⟩
  | ok articles =>
    have h2 : articles.isEmpty = true := h
    cases price with
    | err st =>
      exact ⟨rfl, fun _ _ => rfl, fun u hu => Except.noConfusion hu,
        fun _ _ _ hpc => PriceResult.noConfusion hpc⟩
    | ok cur chg =>
      refine ⟨?_, fun _ hpc => PriceResult.noConfusion hpc,
        fun u hu => Except.noConfusion hu, ?_⟩
      · simp [get_stock_sentiment, h2]
      · intro cur2 chg2 _ hpc
        injection hpc with e1 e2
        subst e1
        subst e2
        refine ⟨?_, ?_, ?_⟩
        · intro hpos
          simp [get_stock_sentiment, h2, signBody, hpos]
        · intro hneg
          simp [get_stock_sentiment, h2, signBody, hneg,
            not_lt.mpr (le_of_lt hneg)]
        · intro hz
          subst hz
          simp [get_stock_sentiment, h2, signBody]

/-- Witness for C5 (amended) at the spec's `change_percent = 2.5`
example: an empty article list with available price data resolves to
`bullish` with no model call. -/
theorem C5_witness :
    noArticles (Except.ok ([] : List Article)) = true
    ∧ ((get_stock_sentiment (Except.ok ([] : List Article))
          (PriceResult.ok 100 (5/2)) []).modelCalled = false
      ∧ (∀ st, PriceResult.ok (100:Rat) (5/2) = PriceResult.err st →
          (get_stock_sentiment (Except.ok ([] : List Article))
            (PriceResult.ok 100 (5/2)) []).response = none)
      ∧ (∀ u, (Except.ok ([] : List Article) : Except Unit (List Article))
            = Except.error u →
          (get_stock_sentiment (Except.ok ([] : List Article))
            (PriceResult.ok 100 (5/2)) []).response = none)
      ∧ (∀ cur chg, (Except.ok ([] : List Article) : Except Unit (List Article))
            = Except.ok ([] : List Article) →
          PriceResult.ok (100:Rat) (5/2) = PriceResult.ok cur chg →
          (0 < chg → (get_stock_sentiment (Except.ok ([] : List Article))
              (PriceResult.ok 100 (5/2)) []).response
              = some (signBody cur chg (lit "bullish")))
          ∧ (chg < 0 → (get_stock_sentiment (Except.ok ([] : List Article))
              (PriceResult.ok 100 (5/2)) []).response
              = some (signBody cur chg (lit "bearish")))
          ∧ (chg = 0 → (get_stock_sentiment (Except.ok ([] : List Article))
              (PriceResult.ok 100 (5/2)) []).response
              = some (signBody cur chg (lit "neutral"))))) :=
  ⟨by decide, C5_no_news_behavior (Except.ok []) (PriceResult.ok 100 (5/2)) []
    (by decide)⟩

/-- C9 counterexample: with price data unavailable and one surviving
article, the daily-rationale endpoint does not return the fixed message —
`price_response.get_json()` raises `AttributeError` on the
`(Response, 429)` tuple and the endpoint answers its generic 500 error
(`daily_summary = none`), the `Market data unavailable` return being
unreachable; no model call is made either. -/
theorem C9_cex :
    (get_daily_summary (Except.ok [artA]) (PriceResult.err 429) [] []).daily_summary
      = none
    ∧ (get_daily_summary (Except.ok [artA]) (PriceResult.err 429) [] []).daily_summary
      ≠ some (lit "Market data unavailable")
    ∧ (get_daily_summary (Except.ok [artA]) (PriceResult.err 429) [] []).modelCalls
      = 0 :=
  ⟨rfl, by decide, rfl⟩

/-- C9 (amended): when the quote stage signals an error — its return is a
`(Response, status)` tuple — the daily-rationale endpoint raises at
`price_response.get_json()` before the sentiment stage is invoked and
returns its generic `Failed to generate daily summary` 500 error
(`daily_summary = none`); the fixed `Market data unavailable` return is
unreachable dead code; and no text-generation model call is made anywhere
in handling that request. -/
theorem C9_price_error_500 (news : Except Unit (List Article))
    (sentResp dailyResp : List Char) (st : Nat) :
    (get_daily_summary news (PriceResult.err st) sentResp dailyResp).daily_summary
      = none
    ∧ (get_daily_summary news (PriceResult.err st) sentResp dailyResp).modelCalls
      = 0 :=
  ⟨rfl, rfl⟩

theorem summaryAt_fin (articles : List Article) (gen : Nat → Option (List Char))
    (i : Fin articles.length) :
    summaryAt articles gen i.val
      = some (mkSummary (articles.get i) (gen i.val)) := by
  unfold summaryAt
  rw [List.getElem?_eq_getElem i.isLt]
  rfl

theorem filterMap_summaryAt_fins (articles : List Article)
    (gen : Nat → Option (List Char)) (l : List (Fin articles.length)) :
    (l.map Fin.val).filterMap (summaryAt articles gen)
      = l.map (fun i => mkSummary (articles.get i) (gen i.val)) := by
  induction l with
  | nil => rfl
  | cons i t ih =>
    rw [List.map_cons, List.filterMap_cons, summaryAt_fin, ih, List.map_cons]

theorem summaries_perm_canonical (articles : List Article)
    (gen : Nat → Option (List Char)) (order : List Nat)
    (h : order.Perm (List.range articles.length)) :
    (get_article_summaries articles gen order).Perm
      ((List.finRange articles.length).map
        (fun i => mkSummary (articles.get i) (gen i.val))) := by
  have h2 := h.filterMap (summaryAt articles gen)
  rw [← List.map_coe_finRange articles.length,
    filterMap_summaryAt_fins articles gen] at h2
  exact h2

/-- C2 counterexample: with two distinct articles where article 0's
generation raises and article 1's succeeds, the completion order that
finishes article 1 first puts article 1's record — not article 0's sentinel
record — at position 0 of the returned list, so the output is NOT aligned
one-to-one by position with the input article list. -/
theorem C2_cex :
    get_article_summaries [artA, artB] genEx [1, 0]
      = [mkSummary artB (some (lit "ok")), mkSummary artA none]
    ∧ (get_article_summaries [artA, artB] genEx [1, 0]).head?
      ≠ some (mkSummary artA (genEx 0)) := by
  constructor
  · decide
  · decide

/-- C2 (amended): for every article list, failure pattern and completion
order of the concurrent headline generations, the returned summaries list
still has length N, and for each article the record carrying that
article's own fields — with the sentinel headline if its generation raised
and the generated headline otherwise — appears in the list; but records
appear in completion order, so the list need not be aligned by position
with the input articles. -/
theorem C2_fanout_length (articles : List Article)
    (gen : Nat → Option (List Char)) (order : List Nat)
    (h : order.Perm (List.range articles.length)) :
    (get_article_summaries articles gen order).length = articles.length
    ∧ ∀ i : Fin articles.length,
        mkSummary (articles.get i) (gen i.val)
          ∈ get_article_summaries articles gen order := by
  have hp := summaries_perm_canonical articles gen order h
  constructor
  · rw [hp.length_eq, List.length_map, List.length_finRange]
  · intro i
    refine hp.symm.mem_iff.mp ?_
    exact List.mem_map.mpr ⟨i, List.mem_finRange i, rfl⟩

/-- Witness for C2 (amended) at a concrete two-article instance with a
failing generation and reversed completion order. -/
theorem C2_witness :
    ([1, 0] : List Nat).Perm (List.range ([artA, artB] : List Article).length)
    ∧ ((get_article_summaries [artA, artB] genEx [1, 0]).length
        = ([artA, artB] : List Article).length
      ∧ ∀ i : Fin ([artA, artB] : List Article).length,
          mkSummary (([artA, artB] : List Article).get i) (genEx i.val)
            ∈ get_article_summaries [artA, artB] genEx [1, 0]) :=
  ⟨by decide, C2_fanout_length [artA, artB] genEx [1, 0] (by decide)⟩

/-- C10: for every article list, failure pattern and completion order, the
returned summaries list is a permutation of the canonical per-article
record list — each input article's url, source, title and description
appear in exactly one output record, carrying the generated headline for
its own article or the sentinel on failure — so association by fields is
preserved even though record order may differ from input order. -/
theorem C10_summaries_permutation (articles : List Article)
    (gen : Nat → Option (List Char)) (order : List Nat)
    (h : order.Perm (List.range articles.length)) :
    (get_article_summaries articles gen order).Perm
      ((List.finRange articles.length).map
        (fun i => mkSummary (articles.get i) (gen i.val))) :=
  summaries_perm_canonical articles gen order h

/-- Witness for C10 at a concrete two-article instance with a failing
generation and reversed completion order. -/
theorem C10_witness :
    ([1, 0] : List Nat).Perm (List.range ([artA, artB] : List Article).length)
    ∧ (get_article_summaries [artA, artB] genEx [1, 0]).Perm
        ((List.finRange ([artA, artB] : List Article).length).map
          (fun i => mkSummary (([artA, artB] : List Article).get i) (genEx i.val))) :=
  ⟨by decide, C10_summaries_permutation [artA, artB] genEx [1, 0] (by decide)⟩

theorem twoStep_induction {motive : List Char → Prop} (h0 : motive [])
    (h1 : ∀ c, motive [c])
    (h2 : ∀ a b rest, motive rest → motive (b :: rest) → motive (a :: b :: rest))
    (l : List Char) : motive l := by
  have key : ∀ t, motive t ∧ ∀ c, motive (c :: t) := by
    intro t
    induction t with
    | nil => exact ⟨h0, h1⟩
    | cons x t2 ih => exact ⟨ih.2 x, fun c => h2 c x t2 ih.1 (ih.2 x)⟩
  exact (key l).1

theorem replPair_cons2 (p q r a b : Char) (rest : List Char) :
    replPair p q r (a :: b :: rest)
      = if a = p ∧ b = q then r :: replPair p q r rest
        else a :: replPair p q r (b :: rest) := rfl

theorem noPairB_cons2_eq (p q a b : Char) (rest : List Char) :
    noPairB p q (a :: b :: rest)
      = (!(decide (a = p) && decide (b = q)) && noPairB p q (b :: rest)) := rfl

theorem noPairB_head (p q a b : Char) (rest : List Char)
    (h : noPairB p q (a :: b :: rest) = true) : ¬(a = p ∧ b = q) := by
  rw [noPairB_cons2_eq, Bool.and_eq_true] at h
  intro hab
  have hx := h.1
  simp [hab.1, hab.2] at hx

theorem noPairB_drop1 (p q x : Char) (l : List Char)
    (h : noPairB p q (x :: l) = true) : noPairB p q l = true := by
  cases l with
  | nil => rfl
  | cons y t =>
    rw [noPairB_cons2_eq, Bool.and_eq_true] at h
    exact h.2

theorem noPairB_build (p q x : Char) (l : List Char)
    (h1 : noPairB p q l = true)
    (h2 : ∀ y, l.head? = some y → ¬(x = p ∧ y = q)) :
    noPairB p q (x :: l) = true := by
  cases l with
  | nil => rfl
  | cons y t =>
    rw [noPairB_cons2_eq, Bool.and_eq_true]
    refine ⟨?_, h1⟩
    have hxy := h2 y rfl
    simpa using (by tauto : ¬x = p ∨ ¬y = q)

theorem replPair_head (p q r : Char) (s : List Char) :
    (replPair p q r s).head? = s.head? ∨ (replPair p q r s).head? = some r := by
  cases s with
  | nil => exact Or.inl rfl
  | cons a t =>
    cases t with
    | nil => exact Or.inl rfl
    | cons b rest =>
      rw [replPair_cons2]
      by_cases h : a = p ∧ b = q
      · rw [if_pos h]
        exact Or.inr rfl
      · rw [if_neg h]
        exact Or.inl rfl

theorem mem_replPair (p q r : Char) (s : List Char) :
    ∀ c ∈ replPair p q r s, c ∈ s ∨ c = r := by
  induction s using twoStep_induction with
  | h0 => intro c hc; exact Or.inl hc
  | h1 d => intro c hc; exact Or.inl hc
  | h2 a b rest ih1 ih2 =>
    intro c hc
    rw [replPair_cons2] at hc
    by_cases h : a = p ∧ b = q
    · rw [if_pos h] at hc
      rcases List.mem_cons.mp hc with rfl | hc2
      · exact Or.inr rfl
      · rcases ih1 c hc2 with hm | hr
        · exact Or.inl (List.mem_cons_of_mem a (List.mem_cons_of_mem b hm))
        · exact Or.inr hr
    · rw [if_neg h] at hc
      rcases List.mem_cons.mp hc with rfl | hc2
      · exact Or.inl (List.mem_cons_self c (b :: rest))
      · rcases ih2 c hc2 with hm | hr
        · exact Or.inl (List.mem_cons_of_mem a hm)
        · exact Or.inr hr

theorem noPairB_replPair (p q r : Char) (hp : r ≠ p) (hq : r ≠ q)
    (s : List Char) : noPairB p q (replPair p q r s) = true := by
  induction s using twoStep_induction with
  | h0 => rfl
  | h1 c => rfl
  | h2 a b rest ih1 ih2 =>
    rw [replPair_cons2]
    by_cases h : a = p ∧ b = q
    · rw [if_pos h]
      refine noPairB_build p q r _ ih1 ?_
      intro y _ hxy
      exact hp hxy.1
    · rw [if_neg h]
      refine noPairB_build p q a _ ih2 ?_
      intro y hy hxy
      rcases replPair_head p q r (b :: rest) with hh | hh
      · rw [hy] at hh
        have hb : b = y := by
          have := hh.symm
          injection this
        exact h ⟨hxy.1, hb ▸ hxy.2⟩
      · rw [hy] at hh
        have hr : r = y := by
          have := hh.symm
          injection this
        exact hq (hr ▸ hxy.2)

theorem noPairB_replPair_other (p q a2 b2 r : Char) (hp : r ≠ p) (hq : r ≠ q) :
    ∀ (s : List Char), noPairB p q s = true →
    noPairB p q (replPair a2 b2 r s) = true := by
  intro s
  induction s using twoStep_induction with
  | h0 => intro _; rfl
  | h1 c => intro _; rfl
  | h2 a b rest ih1 ih2 =>
    intro h
    have hhead := noPairB_head p q a b rest h
    have htail := noPairB_drop1 p q a (b :: rest) h
    have htail2 := noPairB_drop1 p q b rest htail
    rw [replPair_cons2]
    by_cases hm : a = a2 ∧ b = b2
    · rw [if_pos hm]
      refine noPairB_build p q r _ (ih1 htail2) ?_
      intro y _ hxy
      exact hp hxy.1
    · rw [if_neg hm]
      refine noPairB_build p q a _ (ih2 htail) ?_
      intro y hy hxy
      rcases replPair_head a2 b2 r (b :: rest) with hh | hh
      · rw [hy] at hh
        have hb : b = y := by
          have := hh.symm
          injection this
        exact hhead ⟨hxy.1, hb ▸ hxy.2⟩
      · rw [hy] at hh
        have hr : r = y := by
          have := hh.symm
          injection this
        exact hq (hr ▸ hxy.2)

theorem replPair_id (p q r : Char) :
    ∀ (s : List Char), noPairB p q s = true → replPair p q r s = s := by
  intro s
  induction s using twoStep_induction with
  | h0 => intro _; rfl
  | h1 c => intro _; rfl
  | h2 a b rest ih1 ih2 =>
    intro h
    rw [replPair_cons2, if_neg (noPairB_head p q a b rest h),
      ih2 (noPairB_drop1 p q a (b :: rest) h)]

theorem noPairB_take (p q : Char) :
    ∀ (s : List Char), noPairB p q s = true →
    ∀ n, noPairB p q (s.take n) = true := by
  intro s
  induction s using twoStep_induction with
  | h0 => intro _ n; simp [noPairB]
  | h1 c =>
    intro _ n
    cases n with
    | zero => rfl
    | succ k =>
      rw [List.take_succ_cons, List.take_nil]
      rfl
  | h2 a b rest ih1 ih2 =>
    intro h n
    match n with
    | 0 => rfl
    | 1 => rfl
    | (k+2) =>
      rw [List.take_succ_cons]
      refine noPairB_build p q a _ (ih2 (noPairB_drop1 p q a (b :: rest) h) (k+1)) ?_
      intro y hy hxy
      rw [List.take_succ_cons] at hy
      have hb : b = y := by
        have : some b = some y := hy
        injection this
      exact noPairB_head p q a b rest h ⟨hxy.1, hb ▸ hxy.2⟩

theorem sanitizeStr_ctrl (s : List Char) :
    ∀ c ∈ sanitizeStr s, isCtrl c = false := by
  unfold sanitizeStr
  by_cases hs : s = []
  · rw [if_pos hs]
    intro c hc
    exact absurd hc (List.not_mem_nil c)
  · rw [if_neg hs]
    intro c hc
    have hc1 := List.take_subset _ _ hc
    rcases mem_replPair _ _ _ _ c hc1 with h1 | rfl
    · rcases mem_replPair _ _ _ _ c h1 with h2 | rfl
      · have hm := List.mem_filter.mp h2
        simpa using hm.2
      · rfl
    · rfl

theorem sanitizeStr_len (s : List Char) : (sanitizeStr s).length ≤ 500 := by
  unfold sanitizeStr
  by_cases hs : s = []
  · rw [if_pos hs]
    simp
  · rw [if_neg hs]
    exact List.length_take_le ..

theorem sanitizeStr_noBsN (s : List Char) :
    noPairB '\\' 'n' (sanitizeStr s) = true := by
  unfold sanitizeStr
  by_cases hs : s = []
  · rw [if_pos hs]
    rfl
  · rw [if_neg hs]
    refine noPairB_take _ _ _ ?_ 500
    refine noPairB_replPair_other '\\' 'n' '\\' 'r' ' ' (by decide) (by decide) _ ?_
    exact noPairB_replPair '\\' 'n' ' ' (by decide) (by decide) _

theorem sanitizeStr_noBsR (s : List Char) :
    noPairB '\\' 'r' (sanitizeStr s) = true := by
  unfold sanitizeStr
  by_cases hs : s = []
  · rw [if_pos hs]
    rfl
  · rw [if_neg hs]
    refine noPairB_take _ _ _ ?_ 500
    exact noPairB_replPair '\\' 'r' ' ' (by decide) (by decide) _

theorem sanitizeStr_idem (s : List Char) :
    sanitizeStr (sanitizeStr s) = sanitizeStr s := by
  by_cases hy : sanitizeStr s = []
  · rw [hy]
    rfl
  · have hctrl := sanitizeStr_ctrl s
    have hn := sanitizeStr_noBsN s
    have hr := sanitizeStr_noBsR s
    have hlen := sanitizeStr_len s
    have h1 : removeCtrl (sanitizeStr s) = sanitizeStr s := by
      unfold removeCtrl
      refine List.filter_eq_self.mpr ?_
      intro a ha
      simp [hctrl a ha]
    rw [show sanitizeStr (sanitizeStr s)
        = (if sanitizeStr s = [] then []
           else List.take 500 (replPair '\\' 'r' ' '
             (replPair '\\' 'n' ' ' (removeCtrl (sanitizeStr s))))) from rfl]
    rw [if_neg hy, h1, replPair_id _ _ _ _ hn, replPair_id _ _ _ _ hr]
    exact List.take_of_length_le hlen

/-- C6: the prompt sanitizer is a total function; for every input,
`sanitize(sanitize(x)) = sanitize(x)` (idempotence), the output length is
at most 500 characters, the output contains no character in 0x00–0x1F or
0x7F, and empty or null input yields the empty string. -/
theorem C6_sanitizer_contract (x : Option (List Char)) :
    sanitize_for_ai_prompt (some (sanitize_for_ai_prompt x))
      = sanitize_for_ai_prompt x
    ∧ (sanitize_for_ai_prompt x).length ≤ 500
    ∧ (∀ c ∈ sanitize_for_ai_prompt x, isCtrl c = false)
    ∧ sanitize_for_ai_prompt none = []
    ∧ sanitize_for_ai_prompt (some []) = [] := by
  cases x with
  | none =>
    refine ⟨?_, by simp [sanitize_for_ai_prompt], ?_, rfl, rfl⟩
    · show sanitizeStr [] = []
      rfl
    · intro c hc
      exact absurd hc (List.not_mem_nil c)
  | some s =>
    exact ⟨sanitizeStr_idem s, sanitizeStr_len s, sanitizeStr_ctrl s, rfl, rfl⟩
